import Mathlib

/-!
Verification of the contract billing module (`contract.py`) of the
Provider-Dashboard repository: the `Contract` abstract base and its
three variants `MTMContract` (month-to-month / Flexible), `TermContract`
and `PrepaidContract`.

Money amounts are modelled as rationals (the spec treats them as a
single decimal-denominated amount).  The `Bill` ledger and the `Call`
record live outside `src/` and are modelled from the spec (section 6).
-/

namespace ProviderDashboard

/-- Modelled from the spec: the Call record collaborator (`call.py`,
not in `src/`) exposes a call `duration` in whole seconds,
non-negative; modelled as a natural number of seconds. -/
structure Call where
  duration : Nat
  deriving Repr, DecidableEq

/-- Modelled from the spec: the Ledger collaborator (`Bill` in
`bill.py`, not in `src/`) accumulates a fixed cost, a per-minute rate
tagged by plan label, billed minutes, and free minutes for one cycle.
`free_min` is the queryable count of free minutes consumed so far,
used by `TermContract.bill_call`. -/
structure Bill where
  fixed_cost : ℚ
  plan_tag : String
  min_rate : ℚ
  billed_min : Nat
  free_min : Nat
  deriving Repr, DecidableEq

/-- Modelled from the spec: `add_fixed_cost(amount)` adds a one-time or
recurring flat charge. -/
def Bill.add_fixed_cost (b : Bill) (amount : ℚ) : Bill :=
  { b with fixed_cost := b.fixed_cost + amount }

/-- Modelled from the spec: `set_rates(label, per_minute)` records the
plan tag and per-minute rate for usage charges. -/
def Bill.set_rates (b : Bill) (label : String) (per_minute : ℚ) : Bill :=
  { b with plan_tag := label, min_rate := per_minute }

/-- Modelled from the spec: `add_billed_minutes(minutes)` accumulates
paid usage minutes, charged at the registered rate. -/
def Bill.add_billed_minutes (b : Bill) (minutes : Nat) : Bill :=
  { b with billed_min := b.billed_min + minutes }

/-- Modelled from the spec: `add_free_minutes(minutes)` accumulates
minutes consumed from a free pool, not charged. -/
def Bill.add_free_minutes (b : Bill) (minutes : Nat) : Bill :=
  { b with free_min := b.free_min + minutes }

/-- Modelled from the spec: `total_cost() = fixed costs + billed
minutes × rate` (`Bill.get_cost` in the source's calls). -/
def Bill.get_cost (b : Bill) : ℚ :=
  b.fixed_cost + b.billed_min * b.min_rate

/-- Modelled from the spec: a fresh Ledger for a new cycle — every
accumulator starts at zero ("each new ledger starts its free count at
zero"; the driver supplies a fresh Ledger each cycle). -/
def freshBill : Bill :=
  { fixed_cost := 0, plan_tag := "", min_rate := 0, billed_min := 0, free_min := 0 }

/-- A calendar date as used by the contracts: only the month and year
components are ever read (`datetime.date` in the source). -/
structure Date where
  day : Nat
  month : Nat
  year : Nat
  deriving Repr, DecidableEq

/-- `ceil(duration / 60.0)`: whole billed minutes, rounding up to the
next full minute. -/
def ceilMinutes (duration : Nat) : Nat :=
  (duration + 59) / 60

-- Constants from the top of contract.py.

def MTM_MONTHLY_FEE : ℚ := 50
def TERM_MONTHLY_FEE : ℚ := 20
def TERM_DEPOSIT : ℚ := 300
def TERM_MINS : Nat := 100
def MTM_MINS_COST : ℚ := 5 / 100
def TERM_MINS_COST : ℚ := 1 / 10
def PREPAID_MINS_COST : ℚ := 25 / 1000

/-! ## MTMContract (Flexible, month-to-month) -/

/-- State of an `MTMContract`: `start` date (cleared to `none` on
cancellation) and the optional current `bill` reference. -/
structure MTMContract where
  start : Option Date
  bill : Option Bill
  deriving Repr, DecidableEq

/-- `MTMContract` creation via `Contract.__init__(start)`: the bill is
initially absent. -/
def MTMContract.create (start : Date) : MTMContract :=
  { start := some start, bill := none }

/-- `MTMContract.new_month`: store the bill, add the flat 50.00 fee and
set the "MTM" 0.05/min rate. -/
def MTMContract.new_month (c : MTMContract) (_month _year : Nat) (bill : Bill) :
    MTMContract :=
  { c with bill := some ((bill.add_fixed_cost MTM_MONTHLY_FEE).set_rates "MTM" MTM_MINS_COST) }

/-- Base `Contract.bill_call` as inherited by `MTMContract`: add
`ceil(duration/60)` billed minutes to the current bill.  `none` when the
precondition (a current bill exists) is violated. -/
def MTMContract.bill_call (c : MTMContract) (call : Call) : Option MTMContract :=
  match c.bill with
  | some b => some { c with bill := some (b.add_billed_minutes (ceilMinutes call.duration)) }
  | none => none

/-- Base `Contract.cancel_contract` as inherited by `MTMContract`:
clear `start` and return the bill's cost. -/
def MTMContract.cancel_contract (c : MTMContract) : Option (ℚ × MTMContract) :=
  match c.bill with
  | some b => some (b.get_cost, { c with start := none })
  | none => none

/-! ## TermContract -/

/-- State of a `TermContract`: adds the `end` date (named `endd` here;
`end` is a Lean keyword) and the sticky `commit` flag. -/
structure TermContract where
  start : Option Date
  bill : Option Bill
  endd : Option Date
  commit : Bool
  deriving Repr, DecidableEq

/-- `TermContract.__init__(start, end)`: commit starts `False`. -/
def TermContract.create (start endd : Date) : TermContract :=
  { start := some start, bill := none, endd := some endd, commit := false }

/-- `TermContract.new_month`: add the 300.00 deposit when month/year
equal the start date's, set `commit` when they equal the end date's,
then store the bill, set the "TERM" 0.10/min rate and add the 20.00
monthly fee.  `none` when `start`/`end` have been cleared (the Python
code would fail reading `self.start.month`). -/
def TermContract.new_month (c : TermContract) (month year : Nat) (bill : Bill) :
    Option TermContract :=
  match c.start, c.endd with
  | some s, some e =>
      let bill := if s.month = month ∧ s.year = year
        then bill.add_fixed_cost TERM_DEPOSIT else bill
      let commit := if month = e.month ∧ year = e.year then true else c.commit
      some { c with
        commit := commit
        bill := some ((bill.set_rates "TERM" TERM_MINS_COST).add_fixed_cost TERM_MONTHLY_FEE) }
  | _, _ => none

/-- `TermContract.cancel_contract`: bill cost, minus the deposit iff
`commit`; clears `start` and `end`.  Returns the amount together with
the post-state. -/
def TermContract.cancel_contract (c : TermContract) : Option (ℚ × TermContract) :=
  match c.bill with
  | some b =>
      let cost := b.get_cost
      let cost := if c.commit then cost - TERM_DEPOSIT else cost
      some (cost, { c with start := none, endd := none })
  | none => none

/-- `TermContract.bill_call`: `free = TERM_MINS - bill.free_min` (a
Python `int`, so an integer in the model); if positive, consume
`min(call_minutes, free)` free minutes and bill the surplus, else bill
everything. -/
def TermContract.bill_call (c : TermContract) (call : Call) : Option TermContract :=
  match c.bill with
  | some b =>
      let free : ℤ := (TERM_MINS : ℤ) - (b.free_min : ℤ)
      let call_duration := ceilMinutes call.duration
      if 0 < free then
        let used_free := min call_duration free.toNat
        let b := (b.add_free_minutes used_free).add_billed_minutes (call_duration - used_free)
        some { c with bill := some b }
      else
        some { c with bill := some (b.add_billed_minutes call_duration) }
  | none => none

/-! ## PrepaidContract -/

/-- State of a `PrepaidContract`: adds the signed `balance` (negative =
credit). -/
structure PrepaidContract where
  start : Option Date
  bill : Option Bill
  balance : ℚ
  deriving Repr, DecidableEq

/-- `PrepaidContract.__init__(start, balance)`: the supplied credit is
negated into the stored balance. -/
def PrepaidContract.create (start : Date) (balance : ℚ) : PrepaidContract :=
  { start := some start, bill := none, balance := -1 * balance }

/-- `PrepaidContract.new_month`: if a previous bill exists, carry its
cost over into `balance`; recharge 25.00 when `balance > -10`; store
the bill, add `balance` as the fixed charge and set the "PREPAID"
0.025/min rate. -/
def PrepaidContract.new_month (c : PrepaidContract) (_month _year : Nat) (bill : Bill) :
    PrepaidContract :=
  let balance := match c.bill with
    | some old => old.get_cost
    | none => c.balance
  let balance := if balance > -10 then balance - 25 else balance
  { c with
    balance := balance
    bill := some ((bill.add_fixed_cost balance).set_rates "PREPAID" PREPAID_MINS_COST) }

/-- Base `Contract.bill_call` as inherited by `PrepaidContract`. -/
def PrepaidContract.bill_call (c : PrepaidContract) (call : Call) : Option PrepaidContract :=
  match c.bill with
  | some b => some { c with bill := some (b.add_billed_minutes (ceilMinutes call.duration)) }
  | none => none

/-- `PrepaidContract.cancel_contract`: clear `start`, clamp a negative
bill cost to 0, reset `balance` to 0, return the amount. -/
def PrepaidContract.cancel_contract (c : PrepaidContract) : Option (ℚ × PrepaidContract) :=
  match c.bill with
  | some b =>
      let cost := if b.get_cost < 0 then 0 else b.get_cost
      some (cost, { c with start := none, balance := 0 })
  | none => none

/-! ## Cycle runs: billing a sequence of calls, and operation traces -/

/-- Billing a whole sequence of calls, in call order, on an `MTMContract`. -/
def MTMContract.bill_calls (c : MTMContract) : List Call → Option MTMContract
  | [] => some c
  | k :: ks =>
      match c.bill_call k with
      | some c' => c'.bill_calls ks
      | none => none

/-- Billing a whole sequence of calls, in call order, on a `TermContract`. -/
def TermContract.bill_calls (c : TermContract) : List Call → Option TermContract
  | [] => some c
  | k :: ks =>
      match c.bill_call k with
      | some c' => c'.bill_calls ks
      | none => none

/-- One driver-facing operation on a `TermContract`. -/
inductive TermOp where
  | advance : Nat → Nat → Bill → TermOp
  | call : Call → TermOp
  | cancel : TermOp

/-- Apply one operation to a `TermContract` (the cancellation's returned
amount is dropped, keeping the post-state). -/
def TermContract.step (c : TermContract) : TermOp → Option TermContract
  | .advance m y b => c.new_month m y b
  | .call k => c.bill_call k
  | .cancel => (c.cancel_contract).map Prod.snd

/-- Run a sequence of operations on a `TermContract`. -/
def TermContract.run (c : TermContract) : List TermOp → Option TermContract
  | [] => some c
  | op :: ops =>
      match c.step op with
      | some c' => c'.run ops
      | none => none

/-- Total billed minutes of a sequence of calls: `Σ ceil(dᵢ/60)`. -/
def billedSum (calls : List Call) : Nat :=
  (calls.map fun k => ceilMinutes k.duration).sum

/-! ## Helper lemmas -/

lemma MTMContract.bill_calls_some (calls : List Call) :
    ∀ (c : MTMContract) (b : Bill), c.bill = some b →
      c.bill_calls calls =
        some { c with bill := some { b with billed_min := b.billed_min + billedSum calls } } := by
  induction calls with
  | nil =>
      intro c b h
      obtain ⟨cs, cb⟩ := c
      obtain rfl : cb = some b := h
      simp [MTMContract.bill_calls, billedSum]
  | cons k ks ih =>
      intro c b h
      obtain ⟨cs, cb⟩ := c
      obtain rfl : cb = some b := h
      have ihc := ih ⟨cs, some (b.add_billed_minutes (ceilMinutes k.duration))⟩
        (b.add_billed_minutes (ceilMinutes k.duration)) rfl
      have unfold1 : MTMContract.bill_calls ⟨cs, some b⟩ (k :: ks) =
          MTMContract.bill_calls ⟨cs, some (b.add_billed_minutes (ceilMinutes k.duration))⟩ ks :=
        rfl
      rw [unfold1, ihc]
      simp only [billedSum, List.map_cons, List.sum_cons, Bill.add_billed_minutes]
      have harith : b.billed_min + ceilMinutes k.duration +
          (ks.map fun k => ceilMinutes k.duration).sum =
          b.billed_min + (ceilMinutes k.duration +
            (ks.map fun k => ceilMinutes k.duration).sum) := by omega
      exact congrArg
        (fun n => some (MTMContract.mk cs (some { b with billed_min := n }))) harith

/-- Sample values used by the witness theorems. -/
def sampleDate : Date := ⟨25, 12, 2017⟩

def sampleEnd : Date := ⟨25, 6, 2019⟩

def sampleTermC : TermContract :=
  { start := some sampleDate, bill := some freshBill, endd := some sampleEnd, commit := false }

def samplePrepaidC : PrepaidContract :=
  { start := some sampleDate, bill := some freshBill, balance := -40 }

/-! ## Claim theorems -/

/-- C5: for a Flexible (month-to-month) contract, one cycle-advance on a
fresh ledger followed by any finite sequence of calls yields a total cost
of `50.00 + 0.05 × Σ ceil(dᵢ/60)`, each call contributing exactly
`ceil(dᵢ/60)` billed minutes. -/
theorem mtm_cycle_total_cost (s : Date) (m y : Nat) (calls : List Call) :
    ∃ (c' : MTMContract) (b' : Bill),
      ((MTMContract.create s).new_month m y freshBill).bill_calls calls = some c' ∧
      c'.bill = some b' ∧
      b'.billed_min = billedSum calls ∧
      b'.get_cost = 50 + (5 / 100) * (billedSum calls : ℚ) := by
  have h := MTMContract.bill_calls_some calls
    ((MTMContract.create s).new_month m y freshBill)
    ((freshBill.add_fixed_cost MTM_MONTHLY_FEE).set_rates "MTM" MTM_MINS_COST) rfl
  refine ⟨_, _, h, rfl, by simp [freshBill, Bill.add_fixed_cost, Bill.set_rates], ?_⟩
  simp [Bill.get_cost, Bill.add_fixed_cost, Bill.set_rates, freshBill,
    MTM_MONTHLY_FEE, MTM_MINS_COST]
  ring

/-- C3: terminating a Term contract returns the ledger's total cost minus
300.00 when `commit` is true and the total cost unchanged when it is
false, and clears both the start and end date fields. -/
theorem term_cancel_settlement (c : TermContract) (b : Bill) (h : c.bill = some b) :
    ∃ (amt : ℚ) (c' : TermContract), c.cancel_contract = some (amt, c') ∧
      amt = (if c.commit then b.get_cost - 300 else b.get_cost) ∧
      c'.start = none ∧ c'.endd = none := by
  obtain ⟨cs, cb, ce, cc⟩ := c
  obtain rfl : cb = some b := h
  exact ⟨_, _, rfl, rfl, rfl, rfl⟩

/-- Witness for C3 at a concrete Term contract. -/
theorem term_cancel_settlement_witness :
    ∃ (amt : ℚ) (c' : TermContract), sampleTermC.cancel_contract = some (amt, c') ∧
      amt = (if sampleTermC.commit then freshBill.get_cost - 300 else freshBill.get_cost) ∧
      c'.start = none ∧ c'.endd = none :=
  term_cancel_settlement sampleTermC freshBill rfl

/-- C4: terminating a Prepaid contract returns 0 when the ledger's total
cost is negative and the literal total cost otherwise, and afterwards the
balance field is 0 and the start field is cleared. -/
theorem prepaid_cancel_clamp (c : PrepaidContract) (b : Bill) (h : c.bill = some b) :
    ∃ (amt : ℚ) (c' : PrepaidContract), c.cancel_contract = some (amt, c') ∧
      amt = (if b.get_cost < 0 then 0 else b.get_cost) ∧
      c'.balance = 0 ∧ c'.start = none := by
  obtain ⟨cs, cb, bal⟩ := c
  obtain rfl : cb = some b := h
  exact ⟨_, _, rfl, rfl, rfl, rfl⟩

/-- Witness for C4 at a concrete Prepaid contract. -/
theorem prepaid_cancel_clamp_witness :
    ∃ (amt : ℚ) (c' : PrepaidContract), samplePrepaidC.cancel_contract = some (amt, c') ∧
      amt = (if freshBill.get_cost < 0 then 0 else freshBill.get_cost) ∧
      c'.balance = 0 ∧ c'.start = none :=
  prepaid_cancel_clamp samplePrepaidC freshBill rfl

/-- C2: a Prepaid cycle-advance first carries the previous ledger's total
cost into the balance (keeping the constructed balance on the first
cycle), then subtracts 25.00 exactly when the balance is above -10.00,
and registers the resulting balance as the new cycle's fixed charge. -/
theorem prepaid_cycle_advance_recharge :
    (∀ (c : PrepaidContract) (m y : Nat) (nb ob : Bill), c.bill = some ob →
      (c.new_month m y nb).balance =
        (if ob.get_cost > -10 then ob.get_cost - 25 else ob.get_cost) ∧
      ∃ b', (c.new_month m y nb).bill = some b' ∧
        b'.fixed_cost = nb.fixed_cost + (c.new_month m y nb).balance) ∧
    (∀ (c : PrepaidContract) (m y : Nat) (nb : Bill), c.bill = none →
      (c.new_month m y nb).balance =
        (if c.balance > -10 then c.balance - 25 else c.balance) ∧
      ∃ b', (c.new_month m y nb).bill = some b' ∧
        b'.fixed_cost = nb.fixed_cost + (c.new_month m y nb).balance) := by
  constructor
  · intro c m y nb ob h
    obtain ⟨cs, cb, bal⟩ := c
    obtain rfl : cb = some ob := h
    exact ⟨rfl, _, rfl, rfl⟩
  · intro c m y nb h
    obtain ⟨cs, cb, bal⟩ := c
    obtain rfl : cb = (none : Option Bill) := h
    exact ⟨rfl, _, rfl, rfl⟩

/-- Witness for C2: the carried-balance branch at a concrete contract. -/
theorem prepaid_cycle_advance_recharge_witness :
    (samplePrepaidC.new_month 1 2018 freshBill).balance =
      (if freshBill.get_cost > -10 then freshBill.get_cost - 25 else freshBill.get_cost) ∧
    ∃ b', (samplePrepaidC.new_month 1 2018 freshBill).bill = some b' ∧
      b'.fixed_cost = freshBill.fixed_cost + (samplePrepaidC.new_month 1 2018 freshBill).balance :=
  prepaid_cycle_advance_recharge.1 samplePrepaidC 1 2018 freshBill freshBill rfl

/-- C6: a Term cycle-advance adds the 300.00 deposit as a fixed charge
exactly when the supplied month and year equal the start date's, always
adds the 20.00 monthly fee, and the first cycle-advance on a fresh ledger
with zero calls yields a total cost of exactly 320.00. -/
theorem term_cycle_advance_fixed_charges :
    (∀ (c : TermContract) (s e : Date) (m y : Nat) (bill : Bill),
      c.start = some s → c.endd = some e →
      ∃ c' b', c.new_month m y bill = some c' ∧ c'.bill = some b' ∧
        b'.fixed_cost = bill.fixed_cost +
          (if s.month = m ∧ s.year = y then 300 + 20 else 20)) ∧
    (∀ (s e : Date) (m y : Nat), s.month = m → s.year = y →
      ∃ c' b', (TermContract.create s e).new_month m y freshBill = some c' ∧
        c'.bill = some b' ∧ b'.billed_min = 0 ∧ b'.get_cost = 320) := by
  constructor
  · intro c s e m y bill hs he
    obtain ⟨cs, cb, ce, cc⟩ := c
    obtain rfl : cs = some s := hs
    obtain rfl : ce = some e := he
    refine ⟨_, _, rfl, rfl, ?_⟩
    by_cases hc : s.month = m ∧ s.year = y
    · simp [TermContract.new_month, hc, Bill.add_fixed_cost, Bill.set_rates,
        TERM_DEPOSIT, TERM_MONTHLY_FEE]
      ring
    · simp [TermContract.new_month, hc, Bill.add_fixed_cost, Bill.set_rates,
        TERM_MONTHLY_FEE]
  · intro s e m y hm hy
    subst hm; subst hy
    refine ⟨_, _, rfl, rfl, ?_, ?_⟩
    · simp [Bill.add_fixed_cost, Bill.set_rates, freshBill]
    · simp [Bill.get_cost, Bill.add_fixed_cost, Bill.set_rates, freshBill,
        TERM_DEPOSIT, TERM_MONTHLY_FEE, TERM_MINS_COST]
      norm_num

/-- Witness for C6: both conjuncts hold, shown via the first one at a
concrete contract and a non-matching month. -/
theorem term_cycle_advance_fixed_charges_witness :
    ∃ c' b', sampleTermC.new_month 3 2018 freshBill = some c' ∧ c'.bill = some b' ∧
      b'.fixed_cost = freshBill.fixed_cost +
        (if sampleDate.month = 3 ∧ sampleDate.year = 2018 then 300 + 20 else 20) :=
  term_cycle_advance_fixed_charges.1 sampleTermC sampleDate sampleEnd 3 2018 freshBill rfl rfl

lemma TermContract.bill_call_free_branch (cs ce : Option Date) (cc : Bool) (b : Bill)
    (k : Call) (hf : b.free_min < 100) :
    TermContract.bill_call ⟨cs, some b, ce, cc⟩ k = some ⟨cs, some
      ((b.add_free_minutes (min (ceilMinutes k.duration)
          ((TERM_MINS : ℤ) - (b.free_min : ℤ)).toNat)).add_billed_minutes
        (ceilMinutes k.duration - min (ceilMinutes k.duration)
          ((TERM_MINS : ℤ) - (b.free_min : ℤ)).toNat)), ce, cc⟩ := by
  have hpos : (0 : ℤ) < (TERM_MINS : ℤ) - (b.free_min : ℤ) := by
    simp only [TERM_MINS]; omega
  simp only [TermContract.bill_call, if_pos hpos]

lemma TermContract.bill_call_paid_branch (cs ce : Option Date) (cc : Bool) (b : Bill)
    (k : Call) (hf : 100 ≤ b.free_min) :
    TermContract.bill_call ⟨cs, some b, ce, cc⟩ k =
      some ⟨cs, some (b.add_billed_minutes (ceilMinutes k.duration)), ce, cc⟩ := by
  have hneg : ¬ (0 : ℤ) < (TERM_MINS : ℤ) - (b.free_min : ℤ) := by
    simp only [TERM_MINS]; omega
  simp only [TermContract.bill_call, if_neg hneg]

/-- Folding `bill_call` over a call sequence on a Term contract whose
current bill has consumed at most the 100-minute pool: free minutes fill
up to the pool's cap, everything beyond is billed. -/
lemma TermContract.bill_calls_pool (calls : List Call) :
    ∀ (cs ce : Option Date) (cc : Bool) (b : Bill), b.free_min ≤ 100 →
      ∃ b', TermContract.bill_calls ⟨cs, some b, ce, cc⟩ calls = some ⟨cs, some b', ce, cc⟩ ∧
        b'.free_min = min 100 (b.free_min + billedSum calls) ∧
        b'.billed_min = b.billed_min +
          (b.free_min + billedSum calls - min 100 (b.free_min + billedSum calls)) := by
  induction calls with
  | nil =>
      intro cs ce cc b hf
      refine ⟨b, rfl, ?_, ?_⟩ <;> simp [billedSum] <;> omega
  | cons k ks ih =>
      intro cs ce cc b hf
      by_cases hcase : b.free_min < 100
      · have hstep := TermContract.bill_call_free_branch cs ce cc b k hcase
        set b1 := (b.add_free_minutes (min (ceilMinutes k.duration)
            ((TERM_MINS : ℤ) - (b.free_min : ℤ)).toNat)).add_billed_minutes
          (ceilMinutes k.duration - min (ceilMinutes k.duration)
            ((TERM_MINS : ℤ) - (b.free_min : ℤ)).toNat) with hb1
        have hb1free : b1.free_min = b.free_min + min (ceilMinutes k.duration)
            ((TERM_MINS : ℤ) - (b.free_min : ℤ)).toNat := rfl
        have hb1billed : b1.billed_min = b.billed_min + (ceilMinutes k.duration -
            min (ceilMinutes k.duration) ((TERM_MINS : ℤ) - (b.free_min : ℤ)).toNat) := rfl
        have hb1le : b1.free_min ≤ 100 := by
          rw [hb1free]; simp only [TERM_MINS]; omega
        obtain ⟨b', hrun, hfree, hbilled⟩ := ih cs ce cc b1 hb1le
        have hunfold : TermContract.bill_calls ⟨cs, some b, ce, cc⟩ (k :: ks) =
            TermContract.bill_calls ⟨cs, some b1, ce, cc⟩ ks := by
          simp only [TermContract.bill_calls, hstep]
        refine ⟨b', by rw [hunfold, hrun], ?_, ?_⟩
        · rw [hfree, hb1free]
          simp only [billedSum, List.map_cons, List.sum_cons, TERM_MINS]
          omega
        · rw [hbilled, hb1billed, hb1free]
          simp only [billedSum, List.map_cons, List.sum_cons, TERM_MINS]
          omega
      · have hc100 : b.free_min = 100 := by omega
        have hstep := TermContract.bill_call_paid_branch cs ce cc b k (by omega)
        have hb1le : (b.add_billed_minutes (ceilMinutes k.duration)).free_min ≤ 100 := by
          simp [Bill.add_billed_minutes, hc100]
        obtain ⟨b', hrun, hfree, hbilled⟩ :=
          ih cs ce cc (b.add_billed_minutes (ceilMinutes k.duration)) hb1le
        have hunfold : TermContract.bill_calls ⟨cs, some b, ce, cc⟩ (k :: ks) =
            TermContract.bill_calls
              ⟨cs, some (b.add_billed_minutes (ceilMinutes k.duration)), ce, cc⟩ ks := by
          simp only [TermContract.bill_calls, hstep]
        refine ⟨b', by rw [hunfold, hrun], ?_, ?_⟩
        · rw [hfree]
          simp only [Bill.add_billed_minutes, billedSum, List.map_cons, List.sum_cons, hc100]
          omega
        · rw [hbilled]
          simp only [Bill.add_billed_minutes, billedSum, List.map_cons, List.sum_cons, hc100]
          omega

/-- C1: a Term `bill_call` with `f` free minutes already recorded computes
`call_minutes = ceil(duration/60)` and `remaining_free = 100 - f`; when
`remaining_free > 0` (i.e. `f < 100`) it records `min(call_minutes,
remaining_free)` free minutes and bills the surplus, when
`remaining_free ≤ 0` (i.e. `f ≥ 100`) it bills everything; consequently a
cycle's calls, starting from zero free minutes, fill the 100-minute free
pool before any paid minutes, in call order. -/
theorem term_bill_call_pool_order :
    (∀ (c : TermContract) (b : Bill) (k : Call), c.bill = some b → b.free_min < 100 →
      ∃ c' b', c.bill_call k = some c' ∧ c'.bill = some b' ∧
        b'.free_min = b.free_min + min (ceilMinutes k.duration) (100 - b.free_min) ∧
        b'.billed_min = b.billed_min + (ceilMinutes k.duration -
          min (ceilMinutes k.duration) (100 - b.free_min))) ∧
    (∀ (c : TermContract) (b : Bill) (k : Call), c.bill = some b → 100 ≤ b.free_min →
      ∃ c' b', c.bill_call k = some c' ∧ c'.bill = some b' ∧
        b'.free_min = b.free_min ∧
        b'.billed_min = b.billed_min + ceilMinutes k.duration) ∧
    (∀ (c : TermContract) (b : Bill) (calls : List Call), c.bill = some b → b.free_min = 0 →
      ∃ c' b', c.bill_calls calls = some c' ∧ c'.bill = some b' ∧
        b'.free_min = min 100 (billedSum calls) ∧
        b'.billed_min = b.billed_min + (billedSum calls - min 100 (billedSum calls))) := by
  refine ⟨?_, ?_, ?_⟩
  · intro c b k h hf
    obtain ⟨cs, cb, ce, cc⟩ := c
    obtain rfl : cb = some b := h
    refine ⟨_, _, TermContract.bill_call_free_branch cs ce cc b k hf, rfl, ?_, ?_⟩ <;>
      simp only [Bill.add_free_minutes, Bill.add_billed_minutes, TERM_MINS] <;> omega
  · intro c b k h hf
    obtain ⟨cs, cb, ce, cc⟩ := c
    obtain rfl : cb = some b := h
    exact ⟨_, _, TermContract.bill_call_paid_branch cs ce cc b k hf, rfl, rfl, rfl⟩
  · intro c b calls h hf
    obtain ⟨cs, cb, ce, cc⟩ := c
    obtain rfl : cb = some b := h
    obtain ⟨b', hrun, hfree, hbilled⟩ :=
      TermContract.bill_calls_pool calls cs ce cc b (by omega)
    exact ⟨_, b', hrun, rfl, by rw [hfree, hf]; omega, by rw [hbilled, hf]; omega⟩

/-- Witness for C1: the free-pool branch at a concrete 125-second call on
a fresh cycle. -/
theorem term_bill_call_pool_order_witness :
    ∃ c' b', sampleTermC.bill_call ⟨125⟩ = some c' ∧ c'.bill = some b' ∧
      b'.free_min = freshBill.free_min + min (ceilMinutes (Call.mk 125).duration)
        (100 - freshBill.free_min) ∧
      b'.billed_min = freshBill.billed_min + (ceilMinutes (Call.mk 125).duration -
        min (ceilMinutes (Call.mk 125).duration) (100 - freshBill.free_min)) :=
  term_bill_call_pool_order.1 sampleTermC freshBill ⟨125⟩ rfl (by decide)

/-- C10: a Term `bill_call` preserves the bound `free_min ≤ 100` on the
current bill, so a cycle whose ledger starts with zero free minutes never
records more than the 100-minute pool across any call sequence. -/
theorem term_free_min_bounded :
    (∀ (c : TermContract) (b : Bill) (k : Call) (c' : TermContract) (b' : Bill),
      c.bill = some b → b.free_min ≤ 100 → c.bill_call k = some c' → c'.bill = some b' →
      b'.free_min ≤ 100) ∧
    (∀ (c : TermContract) (b : Bill) (calls : List Call) (c' : TermContract) (b' : Bill),
      c.bill = some b → b.free_min = 0 → c.bill_calls calls = some c' → c'.bill = some b' →
      b'.free_min ≤ 100) := by
  constructor
  · intro c b k c' b' h hf hrun hb'
    obtain ⟨cs, cb, ce, cc⟩ := c
    obtain rfl : cb = some b := h
    by_cases hlt : b.free_min < 100
    · rw [TermContract.bill_call_free_branch cs ce cc b k hlt] at hrun
      obtain rfl := Option.some.inj hrun
      obtain rfl := Option.some.inj hb'
      simp only [Bill.add_free_minutes, Bill.add_billed_minutes, TERM_MINS]
      omega
    · rw [TermContract.bill_call_paid_branch cs ce cc b k (by omega)] at hrun
      obtain rfl := Option.some.inj hrun
      obtain rfl := Option.some.inj hb'
      simpa [Bill.add_billed_minutes] using hf
  · intro c b calls c' b' h hf hrun hb'
    obtain ⟨cs, cb, ce, cc⟩ := c
    obtain rfl : cb = some b := h
    obtain ⟨b'', hrun', hfree, _⟩ := TermContract.bill_calls_pool calls cs ce cc b (by omega)
    rw [hrun'] at hrun
    obtain rfl := Option.some.inj hrun
    obtain rfl := Option.some.inj hb'
    omega

/-- Witness for C10: the per-call bound at a concrete 125-second call on
a fresh cycle. -/
theorem term_free_min_bounded_witness :
    Bill.free_min
      { fixed_cost := 0, plan_tag := "", min_rate := 0, billed_min := 0, free_min := 3 }
      ≤ 100 :=
  term_free_min_bounded.1 sampleTermC freshBill ⟨125⟩
    { start := some sampleDate, bill := some
        { fixed_cost := 0, plan_tag := "", min_rate := 0, billed_min := 0, free_min := 3 },
      endd := some sampleEnd, commit := false }
    { fixed_cost := 0, plan_tag := "", min_rate := 0, billed_min := 0, free_min := 3 }
    rfl (by decide) (by decide) rfl

lemma TermContract.step_preserves_commit (c : TermContract) (op : TermOp)
    (c' : TermContract) (hc : c.commit = true) (h : c.step op = some c') :
    c'.commit = true := by
  obtain ⟨cs, cb, ce, cc⟩ := c
  cases op with
  | advance m y b =>
      cases cs with
      | none => exact absurd h (by simp [TermContract.step, TermContract.new_month])
      | some s =>
          cases ce with
          | none => exact absurd h (by simp [TermContract.step, TermContract.new_month])
          | some e =>
              simp only [TermContract.step, TermContract.new_month, Option.some.injEq] at h
              subst h
              simp only at hc
              simp [hc]
  | call k =>
      cases cb with
      | none => exact absurd h (by simp [TermContract.step, TermContract.bill_call])
      | some b =>
          by_cases hlt : b.free_min < 100
          · rw [show TermContract.step ⟨cs, some b, ce, cc⟩ (.call k) =
                TermContract.bill_call ⟨cs, some b, ce, cc⟩ k from rfl,
              TermContract.bill_call_free_branch cs ce cc b k hlt] at h
            obtain rfl := Option.some.inj h
            exact hc
          · rw [show TermContract.step ⟨cs, some b, ce, cc⟩ (.call k) =
                TermContract.bill_call ⟨cs, some b, ce, cc⟩ k from rfl,
              TermContract.bill_call_paid_branch cs ce cc b k (by omega)] at h
            obtain rfl := Option.some.inj h
            exact hc
  | cancel =>
      cases cb with
      | none => exact absurd h (by simp [TermContract.step, TermContract.cancel_contract])
      | some b =>
          simp only [TermContract.step, TermContract.cancel_contract, Option.map,
            Option.some.injEq] at h
          subst h
          exact hc

lemma TermContract.run_preserves_commit (ops : List TermOp) :
    ∀ (c c' : TermContract), c.commit = true → c.run ops = some c' → c'.commit = true := by
  induction ops with
  | nil =>
      intro c c' hc h
      obtain rfl := Option.some.inj h
      exact hc
  | cons op ops ih =>
      intro c c' hc h
      simp only [TermContract.run] at h
      cases hstep : c.step op with
      | none => rw [hstep] at h; exact absurd h (by simp)
      | some c1 =>
          rw [hstep] at h
          exact ih c1 c' (TermContract.step_preserves_commit c op c1 hc hstep) h

/-- C7: a Term contract's `commit` flag starts false, is set by a
cycle-advance whose month/year match the end date's, and once true stays
true across every sequence of cycle-advance, call-billing and
termination operations that succeed. -/
theorem term_commit_sticky :
    (∀ (s e : Date), (TermContract.create s e).commit = false) ∧
    (∀ (c : TermContract) (e : Date) (b : Bill) (c' : TermContract),
      c.endd = some e → c.new_month e.month e.year b = some c' → c'.commit = true) ∧
    (∀ (c : TermContract) (ops : List TermOp) (c' : TermContract),
      c.commit = true → c.run ops = some c' → c'.commit = true) := by
  refine ⟨fun s e => rfl, ?_, ?_⟩
  · intro c e b c' he h
    obtain ⟨cs, cb, ce, cc⟩ := c
    obtain rfl : ce = some e := he
    cases cs with
    | none => exact absurd h (by simp [TermContract.new_month])
    | some s =>
        simp only [TermContract.new_month, Option.some.injEq] at h
        subst h
        simp
  · intro c ops c' hc h
    exact TermContract.run_preserves_commit ops c c' hc h

/-- A committed Term contract, used by the C7 witness. -/
def sampleCommittedTermC : TermContract :=
  { start := some sampleDate, bill := some freshBill, endd := some sampleEnd, commit := true }

/-- Witness for C7: the sticky clause on the empty operation sequence
from a committed contract. -/
theorem term_commit_sticky_witness :
    sampleCommittedTermC.commit = true :=
  term_commit_sticky.2.2 sampleCommittedTermC [] sampleCommittedTermC rfl rfl

/-- C9: `bill_call` on any variant leaves the contract's own fields
(start, end, commit, balance) unchanged and changes the current bill only
by adding free and/or billed minutes; its fixed cost, plan tag and rate
are untouched. -/
theorem bill_call_frame :
    (∀ (c : MTMContract) (k : Call) (c' : MTMContract), c.bill_call k = some c' →
      c'.start = c.start ∧ ∃ b b' df db, c.bill = some b ∧ c'.bill = some b' ∧
        b'.fixed_cost = b.fixed_cost ∧ b'.plan_tag = b.plan_tag ∧ b'.min_rate = b.min_rate ∧
        b'.free_min = b.free_min + df ∧ b'.billed_min = b.billed_min + db) ∧
    (∀ (c : TermContract) (k : Call) (c' : TermContract), c.bill_call k = some c' →
      c'.start = c.start ∧ c'.endd = c.endd ∧ c'.commit = c.commit ∧
      ∃ b b' df db, c.bill = some b ∧ c'.bill = some b' ∧
        b'.fixed_cost = b.fixed_cost ∧ b'.plan_tag = b.plan_tag ∧ b'.min_rate = b.min_rate ∧
        b'.free_min = b.free_min + df ∧ b'.billed_min = b.billed_min + db) ∧
    (∀ (c : PrepaidContract) (k : Call) (c' : PrepaidContract), c.bill_call k = some c' →
      c'.start = c.start ∧ c'.balance = c.balance ∧
      ∃ b b' df db, c.bill = some b ∧ c'.bill = some b' ∧
        b'.fixed_cost = b.fixed_cost ∧ b'.plan_tag = b.plan_tag ∧ b'.min_rate = b.min_rate ∧
        b'.free_min = b.free_min + df ∧ b'.billed_min = b.billed_min + db) := by
  refine ⟨?_, ?_, ?_⟩
  · intro c k c' h
    obtain ⟨cs, cb⟩ := c
    cases cb with
    | none => exact absurd h (by simp [MTMContract.bill_call])
    | some b =>
        obtain rfl := Option.some.inj h
        exact ⟨rfl, b, _, 0, ceilMinutes k.duration, rfl, rfl, rfl, rfl, rfl,
          by simp [Bill.add_billed_minutes], rfl⟩
  · intro c k c' h
    obtain ⟨cs, cb, ce, cc⟩ := c
    cases cb with
    | none => exact absurd h (by simp [TermContract.bill_call])
    | some b =>
        by_cases hlt : b.free_min < 100
        · rw [TermContract.bill_call_free_branch cs ce cc b k hlt] at h
          obtain rfl := Option.some.inj h
          exact ⟨rfl, rfl, rfl, b, _,
            min (ceilMinutes k.duration) ((TERM_MINS : ℤ) - (b.free_min : ℤ)).toNat,
            ceilMinutes k.duration - min (ceilMinutes k.duration)
              ((TERM_MINS : ℤ) - (b.free_min : ℤ)).toNat,
            rfl, rfl, rfl, rfl, rfl, rfl, rfl⟩
        · rw [TermContract.bill_call_paid_branch cs ce cc b k (by omega)] at h
          obtain rfl := Option.some.inj h
          exact ⟨rfl, rfl, rfl, b, _, 0, ceilMinutes k.duration,
            rfl, rfl, rfl, rfl, rfl, by simp [Bill.add_billed_minutes], rfl⟩
  · intro c k c' h
    obtain ⟨cs, cb, bal⟩ := c
    cases cb with
    | none => exact absurd h (by simp [PrepaidContract.bill_call])
    | some b =>
        obtain rfl := Option.some.inj h
        exact ⟨rfl, rfl, b, _, 0, ceilMinutes k.duration,
          rfl, rfl, rfl, rfl, rfl, by simp [Bill.add_billed_minutes], rfl⟩

/-- A month-to-month contract and its state after one 125-second call,
used by the C9 witness. -/
def sampleMTMC : MTMContract := { start := some sampleDate, bill := some freshBill }

def sampleMTMCAfter : MTMContract :=
  { start := some sampleDate,
    bill := some (freshBill.add_billed_minutes (ceilMinutes (Call.mk 125).duration)) }

/-- Witness for C9: the month-to-month clause at a concrete call. -/
theorem bill_call_frame_witness :
    sampleMTMCAfter.start = sampleMTMC.start ∧
    ∃ b b' df db, sampleMTMC.bill = some b ∧ sampleMTMCAfter.bill = some b' ∧
      b'.fixed_cost = b.fixed_cost ∧ b'.plan_tag = b.plan_tag ∧ b'.min_rate = b.min_rate ∧
      b'.free_min = b.free_min + df ∧ b'.billed_min = b.billed_min + db :=
  bill_call_frame.1 sampleMTMC ⟨125⟩ sampleMTMCAfter rfl

/-! ## C8: sign of the termination amount -/

/-- One driver-facing operation on an `MTMContract` before termination.
Modelled from the spec: the driver supplies a fresh Ledger to each
cycle-advance. -/
inductive MTMOp where
  | advance : Nat → Nat → MTMOp
  | call : Call → MTMOp

/-- Apply one operation to an `MTMContract`. -/
def MTMContract.step (c : MTMContract) : MTMOp → Option MTMContract
  | .advance m y => some (c.new_month m y freshBill)
  | .call k => c.bill_call k

/-- Run a sequence of operations on an `MTMContract`. -/
def MTMContract.run (c : MTMContract) : List MTMOp → Option MTMContract
  | [] => some c
  | op :: ops =>
      match c.step op with
      | some c' => c'.run ops
      | none => none

/-- Invariant: the current bill, when present, has a non-negative fixed
cost and a non-negative rate. -/
def MTMContract.nonnegBill (c : MTMContract) : Prop :=
  ∀ b, c.bill = some b → 0 ≤ b.fixed_cost ∧ 0 ≤ b.min_rate

lemma MTMContract.step_nonnegBill (c : MTMContract) (op : MTMOp) (c' : MTMContract)
    (hc : c.nonnegBill) (h : c.step op = some c') : c'.nonnegBill := by
  obtain ⟨cs, cb⟩ := c
  cases op with
  | advance m y =>
      obtain rfl := Option.some.inj h
      intro b hb
      obtain rfl := Option.some.inj hb
      constructor <;>
        norm_num [Bill.add_fixed_cost, Bill.set_rates, freshBill, MTM_MONTHLY_FEE, MTM_MINS_COST]
  | call k =>
      cases cb with
      | none => exact absurd h (by simp [MTMContract.step, MTMContract.bill_call])
      | some b0 =>
          obtain rfl := Option.some.inj h
          intro b hb
          obtain rfl := Option.some.inj hb
          simpa [Bill.add_billed_minutes] using hc b0 rfl

lemma MTMContract.run_nonnegBill (ops : List MTMOp) :
    ∀ (c c' : MTMContract), c.nonnegBill → c.run ops = some c' → c'.nonnegBill := by
  induction ops with
  | nil =>
      intro c c' hc h
      obtain rfl := Option.some.inj h
      exact hc
  | cons op ops ih =>
      intro c c' hc h
      simp only [MTMContract.run] at h
      cases hstep : c.step op with
      | none => rw [hstep] at h; exact absurd h (by simp)
      | some c1 =>
          rw [hstep] at h
          exact ih c1 c' (MTMContract.step_nonnegBill c op c1 hc hstep) h

/-- Counterexample to C8 as stated: a Term contract created for a
one-month term (start January 2020, end February 2020), advanced through
both cycles on fresh ledgers with no calls, terminates at
`20.00 - 300.00 = -280.00`, a negative amount returned to the driver with
no zero-clamping. -/
theorem term_cancel_negative_cex :
    (((TermContract.create ⟨1, 1, 2020⟩ ⟨1, 2, 2020⟩).run
        [TermOp.advance 1 2020 freshBill, TermOp.advance 2 2020 freshBill]).bind
      (fun t => t.cancel_contract.map Prod.fst)) = some (-280) ∧ ((-280 : ℚ) < 0) := by
  refine ⟨?_, by norm_num⟩
  norm_num [TermContract.create, TermContract.run, TermContract.step, TermContract.new_month,
    TermContract.cancel_contract, Bill.add_fixed_cost, Bill.set_rates, Bill.get_cost, freshBill,
    TERM_DEPOSIT, TERM_MONTHLY_FEE, TERM_MINS_COST, Option.bind, Option.map]

/-- C8 amended: the amount returned by `terminate` is non-negative for
the Prepaid variant (always, by its zero-clamp) and for the Flexible
variant on every state reachable from creation by cycle-advances on
fresh ledgers and call billing; the Term variant has no clamp and can
return a negative amount once `commit` is true. -/
theorem terminate_nonneg_amended :
    (∀ (s : Date) (ops : List MTMOp) (c' : MTMContract) (amt : ℚ) (c'' : MTMContract),
      (MTMContract.create s).run ops = some c' → c'.cancel_contract = some (amt, c'') →
      0 ≤ amt) ∧
    (∀ (c : PrepaidContract) (amt : ℚ) (c' : PrepaidContract),
      c.cancel_contract = some (amt, c') → 0 ≤ amt) := by
  constructor
  · intro s ops c' amt c'' hrun hcancel
    have hinv : c'.nonnegBill :=
      MTMContract.run_nonnegBill ops (MTMContract.create s) c'
        (by intro b hb; exact absurd hb (by simp [MTMContract.create])) hrun
    obtain ⟨cs, cb⟩ := c'
    cases cb with
    | none => exact absurd hcancel (by simp [MTMContract.cancel_contract])
    | some b =>
        have hp := Option.some.inj hcancel
        obtain ⟨rfl, rfl⟩ := Prod.mk.inj hp
        obtain ⟨hfix, hrate⟩ := hinv b rfl
        have hmin : (0 : ℚ) ≤ (b.billed_min : ℚ) * b.min_rate :=
          mul_nonneg (by positivity) hrate
        simp only [Bill.get_cost]
        linarith
  · intro c amt c' hcancel
    obtain ⟨cs, cb, bal⟩ := c
    cases cb with
    | none => exact absurd hcancel (by simp [PrepaidContract.cancel_contract])
    | some b =>
        have hp := Option.some.inj hcancel
        obtain ⟨rfl, rfl⟩ := Prod.mk.inj hp
        by_cases hneg : b.get_cost < 0
        · simp [hneg]
        · simp only [if_neg hneg]
          linarith [not_lt.mp hneg]

/-- Witness for the amended C8: the Prepaid clause at a concrete
contract whose bill has zero total cost. -/
theorem terminate_nonneg_amended_witness : (0 : ℚ) ≤ 0 :=
  terminate_nonneg_amended.2 samplePrepaidC 0
    { start := none, bill := some freshBill, balance := 0 }
    (by norm_num [samplePrepaidC, PrepaidContract.cancel_contract, Bill.get_cost, freshBill])

end ProviderDashboard
